import Mathlib

/-!
Verification of the graphing repository core: expression evaluation,
point sampling with discontinuity detection, coordinate transforms,
viewport zoom/pan state, derivative estimation, and expression
validation.  Numbers are modelled as rationals; the JavaScript value
NaN is modelled as the value none of Option.  The third-party math
engine (math.js) is abstracted as a function that either returns a
value (possibly NaN, i.e. some/none) or raises an error (modelled as
Except.error), since only the repository code wrapped around it is
under verification.
-/

/-- Abstract math engine: given an expression string and a value for x,
either produces a numeric result (some q) or the NaN value (none), or
raises (Except.error), as math.js parse/compile/evaluate may throw. -/
def MathEngine : Type := String → ℚ → Except String (Option ℚ)

/-- From graphUtils, evaluateExpression: wraps the engine call in
try/catch; any raised error is converted to NaN (here: none), so the
result is always a plain value, never an exception. -/
def evaluateExpression (m : MathEngine) (expr : String) (x : ℚ) : Option ℚ :=
  match m expr x with
  | .ok v => v
  | .error _ => none

/-- A sampled point; y = none models the NaN break marker. -/
structure SamplePoint where
  x : ℚ
  y : Option ℚ
deriving DecidableEq, Repr

/-- From graphUtils, generatePoints: MAX_POINTS. -/
def MAX_POINTS : ℕ := 1000

/-- From graphUtils, generatePoints: DISCONTINUITY_THRESHOLD. -/
def DISCONTINUITY_THRESHOLD : ℚ := 1000000

/-- The body of the for loop of generatePoints, with explicit fuel; one
unit of fuel per loop iteration.  The loop guard, the invalid-value
skip that resets previousY, the jump detection that pushes a NaN
marker, and the push of the valid point follow the source line by
line. -/
def genLoop (f : ℚ → Option ℚ) (maxX step : ℚ) :
    ℕ → ℚ → Option ℚ → List SamplePoint → List SamplePoint
  | 0, _, _, points => points
  | fuel + 1, x, previousY, points =>
    if x ≤ maxX ∧ points.length < MAX_POINTS then
      match f x with
      | none => genLoop f maxX step fuel (x + step) none points
      | some y =>
        if |y| > DISCONTINUITY_THRESHOLD then
          genLoop f maxX step fuel (x + step) none points
        else
          let points1 :=
            match previousY with
            | some py =>
              if |y - py| > DISCONTINUITY_THRESHOLD then
                points ++ [⟨x, none⟩]
              else points
            | none => points
          genLoop f maxX step fuel (x + step) (some y) (points1 ++ [⟨x, some y⟩])
    else points

/-- The JavaScript String.prototype.trim operation, dropping leading
and trailing whitespace. -/
def jsTrim (s : String) : String :=
  ⟨((s.data.dropWhile Char.isWhitespace).reverse.dropWhile Char.isWhitespace).reverse⟩

/-- Fuel sufficient to run the sampling loop to completion when step is
positive: the source loop then runs at most ceil((maxX - minX)/step) + 1
iterations; extra fuel never changes the result because the loop guard
returns the accumulated points unchanged once x exceeds maxX. -/
def iterFuel (minX maxX step : ℚ) : ℕ := ((maxX - minX) / step).ceil.toNat + 1

/-- From graphUtils, generatePoints: an empty or whitespace expression
yields an empty list; otherwise the sampling loop runs from minX with
previousY = null and an empty accumulator. -/
def generatePoints (m : MathEngine) (expr : String) (minX maxX step : ℚ) :
    List SamplePoint :=
  if jsTrim expr = "" then []
  else genLoop (fun x => evaluateExpression m expr x) maxX step
    (iterFuel minX maxX step) minX none []

/-- Break-marker well-formedness of a sample list: every NaN point is
immediately followed by a point at the same x whose value is within the
discontinuity threshold, so a NaN point is never last. -/
def goodBreaks : List SamplePoint → Bool
  | [] => true
  | p :: tl =>
    match p.y with
    | some _ => goodBreaks tl
    | none =>
      match tl with
      | [] => false
      | q :: _ =>
        match q.y with
        | some v =>
          decide (q.x = p.x) && decide (|v| ≤ DISCONTINUITY_THRESHOLD) && goodBreaks tl
        | none => false

/-- From GraphDisplay, scaleX: graph x to pixel x for the given bounds
and canvas width. -/
def scaleX (size_w : ℚ) (x : ℚ) (xMin xMax : ℚ) : ℚ :=
  ((x - xMin) / (xMax - xMin)) * size_w

/-- From GraphDisplay, scaleY: graph y to pixel y for the given bounds
and canvas height; the pixel y axis points down. -/
def scaleY (size_h : ℚ) (y : ℚ) (yMin yMax : ℚ) : ℚ :=
  size_h - ((y - yMin) / (yMax - yMin)) * size_h

/-- Visible bounds of graph space. -/
structure GraphBounds where
  xMin : ℚ
  xMax : ℚ
  yMin : ℚ
  yMax : ℚ
deriving DecidableEq

/-- From GraphDisplay, canvasToGraphCoords: pixel coordinates to graph
coordinates. -/
def canvasToGraphCoords (size_w size_h canvasX canvasY : ℚ) (b : GraphBounds) : ℚ × ℚ :=
  (b.xMin + (canvasX / size_w) * (b.xMax - b.xMin),
   b.yMax - (canvasY / size_h) * (b.yMax - b.yMin))

/-- Viewport state: center of view and zoom factor. -/
structure Viewport where
  center : ℚ × ℚ
  zoom : ℚ
deriving DecidableEq

/-- From GraphDisplay, calculateBounds: visible width is 20 / zoom and
visible height scales by the canvas aspect ratio. -/
def calculateBounds (v : Viewport) (size_w size_h : ℚ) : GraphBounds :=
  let aspect := size_h / size_w
  let viewWidth := 20 / v.zoom
  let viewHeight := viewWidth * aspect
  ⟨v.center.1 - viewWidth / 2, v.center.1 + viewWidth / 2,
   v.center.2 - viewHeight / 2, v.center.2 + viewHeight / 2⟩

/-- From GraphDisplay, handleMouseMove: pan by the pixel deltas px
(rightward) and py (downward) measured from the drag start, moving the
center from the drag-start center; the zoom is passed through. -/
def handleMouseMove (v : Viewport) (px py size_w size_h : ℚ) : Viewport :=
  let dx := px * (v.zoom / size_w)
  let dy := (-py) * (v.zoom / size_h)
  ⟨(v.center.1 - dx * 20, v.center.2 - dy * 20), v.zoom⟩

/-- The graph point rendered under a given canvas pixel: bounds are
recomputed from the viewport, then the pixel is mapped to graph space. -/
def graphPointAtPixel (v : Viewport) (size_w size_h cx cy : ℚ) : ℚ × ℚ :=
  canvasToGraphCoords size_w size_h cx cy (calculateBounds v size_w size_h)

/-- The zoom clamp used by the mutators in GraphingTool and
GraphControls. -/
def clampZoom (z : ℚ) : ℚ := max (1 / 2 : ℚ) (min 2 z)

/-- From GraphingTool, the setZoomLevel prop: stores the clamped zoom
into the viewport. -/
def setZoomLevel (v : Viewport) (z : ℚ) : Viewport := ⟨v.center, clampZoom z⟩

/-- From GraphControls, handleZoomChange: clamps the requested value
and passes it to the setZoomLevel prop, which clamps again. -/
def handleZoomChange (v : Viewport) (z : ℚ) : Viewport := setZoomLevel v (clampZoom z)

/-- From GraphingTool, resetView: center origin, zoom 1. -/
def resetViewViewport : Viewport := ⟨(0, 0), 1⟩

/-- From GraphingTool, the useState seed for the viewport. -/
def initialViewport : Viewport := ⟨(0, 0), 1⟩

/-- The UI operations that replace the viewport state. -/
inductive ViewportEvent
  | setZoom (z : ℚ)
  | sliderZoom (z : ℚ)
  | pan (px py size_w size_h : ℚ)
  | reset

/-- One viewport state transition per UI operation. -/
def applyEvent (v : Viewport) : ViewportEvent → Viewport
  | .setZoom z => setZoomLevel v z
  | .sliderZoom z => handleZoomChange v z
  | .pan px py w h => handleMouseMove v px py w h
  | .reset => resetViewViewport

/-- Iterated viewport state transitions. -/
def runEvents (v : Viewport) (evs : List ViewportEvent) : Viewport :=
  evs.foldl applyEvent v

/-- Result type of calculateDerivative in GraphDisplay: the source can
in principle return null (its catch branch), the NaN value, or a
number. -/
inductive DerivResult
  | null
  | nan
  | val (v : ℚ)
deriving DecidableEq

/-- From GraphDisplay, calculateDerivative: two evaluations and a
central difference.  The try/catch around them is modelled by the
absence of any exceptional outcome: evaluateExpression already catches
internally and returns NaN, and JavaScript arithmetic on numbers never
throws, so the catch branch producing null is unreachable; arithmetic
involving NaN yields NaN. -/
def calculateDerivative (m : MathEngine) (expr : String) (x h : ℚ) : DerivResult :=
  match evaluateExpression m expr (x - h), evaluateExpression m expr (x + h) with
  | some y1, some y2 => .val ((y2 - y1) / (2 * h))
  | _, _ => .nan

/-- Whether pat begins the given character list. -/
def strStartsWith : List Char → List Char → Bool
  | [], _ => true
  | _ :: _, [] => false
  | p :: ps, c :: cs => p = c && strStartsWith ps cs

/-- Replace the first occurrence of pat by rep, as the JavaScript
String.prototype.replace does for a plain string pattern. -/
def replaceFirstAux (pat rep : List Char) : List Char → List Char
  | [] => []
  | c :: rest =>
    if strStartsWith pat (c :: rest) then rep ++ (c :: rest).drop pat.length
    else c :: replaceFirstAux pat rep rest

/-- String version of replaceFirstAux. -/
def replaceFirst (s pat rep : String) : String :=
  ⟨replaceFirstAux pat.data rep.data s.data⟩

/-- From graphUtils, validateExpression: the first sanitizing rewrite,
inserting a multiplication sign between a digit and a following x. -/
def insertMulDigitX : List Char → List Char
  | c1 :: c2 :: rest =>
    if c1.isDigit ∧ c2 = 'x' then c1 :: '*' :: insertMulDigitX (c2 :: rest)
    else c1 :: insertMulDigitX (c2 :: rest)
  | l => l

/-- From graphUtils, validateExpression: the second sanitizing rewrite,
inserting a caret between an x and a following digit. -/
def insertPowXDigit : List Char → List Char
  | c1 :: c2 :: rest =>
    if c1 = 'x' ∧ c2.isDigit then c1 :: '^' :: insertPowXDigit (c2 :: rest)
    else c1 :: insertPowXDigit (c2 :: rest)
  | l => l

/-- The sanitizing preprocessing of validateExpression, applied in
source order: digit-x multiplication first, then x-digit
exponentiation. -/
def sanitizeExpression (s : String) : String :=
  ⟨insertPowXDigit (insertMulDigitX s.data)⟩

/-- Result record of validateExpression. -/
structure ValidationResult where
  isValid : Bool
  error : Option String
deriving DecidableEq

/-- The x values validateExpression probes. -/
def testXValues : List ℚ := [-2, -1, 0, 1, 2]

/-- The forEach over test values: evaluation stops at the first raised
error, which propagates to the enclosing catch. -/
def forEachEvaluate (m : MathEngine) (expr : String) : List ℚ → Except String Unit
  | [] => .ok ()
  | x :: rest =>
    match m expr x with
    | .ok _ => forEachEvaluate m expr rest
    | .error e => .error e

/-- From graphUtils, validateExpression: empty input is rejected,
otherwise the sanitized expression is compiled and probed at the test
values; a raised error is reported with its message rewritten. -/
def validateExpression (m : MathEngine) (expr : String) : ValidationResult :=
  if jsTrim expr = "" then ⟨false, some "Empty expression"⟩
  else
    match forEachEvaluate m (sanitizeExpression expr) testXValues with
    | .ok _ => ⟨true, none⟩
    | .error e =>
      ⟨false, some (replaceFirst (replaceFirst e "Undefined symbol" "Invalid symbol")
        "Unexpected operator" "Invalid syntax")⟩

/-- Engine whose value alternates between 600000 and -600000 with the
parity of the numerator, producing a jump of 1200000 between
consecutive integer samples while every value stays inside the
discontinuity threshold. -/
def altEngine : MathEngine :=
  fun _ x => .ok (some (if x.num % 2 = 0 then 600000 else -600000))

/-- Engine with a single in-range jump across x = 0. -/
def jumpEngine : MathEngine :=
  fun _ x => .ok (some (if x ≤ 0 then -600000 else 600000))

/-- Engine that always raises. -/
def failEngine : MathEngine := fun _ _ => .error "Undefined symbol f"

/-- Engine that knows only the expression produced by the sanitizer
from the input x2: it evaluates the caret form and raises an
undefined-symbol error on everything else, the way math.js treats the
identifier x2. -/
def sqEngine : MathEngine :=
  fun e x => if e = "x^2" then .ok (some (x ^ 2)) else .error "Undefined symbol"

/-- The value of the alternating engine at integer sample index k. -/
def av (k : ℕ) : ℚ := if k % 2 = 0 then 600000 else -600000

/-- The sample function that generatePoints derives from the
alternating engine. -/
def altF : ℚ → Option ℚ := fun x => evaluateExpression altEngine "f" x

/-- One loop iteration grows the accumulator by at most two points and
only runs while the accumulator is below MAX_POINTS, so the result
never exceeds 1001 points (or the incoming length, if already larger). -/
theorem genLoop_length_le (f : ℚ → Option ℚ) (maxX step : ℚ) :
    ∀ (fuel : ℕ) (x : ℚ) (previousY : Option ℚ) (points : List SamplePoint),
      (genLoop f maxX step fuel x previousY points).length ≤ max points.length 1001 := by
  intro fuel
  induction fuel with
  | zero =>
    intro x previousY points
    rw [genLoop]
    exact le_max_left points.length 1001
  | succ fuel ih =>
    intro x previousY points
    rw [genLoop]
    by_cases hg : x ≤ maxX ∧ points.length < MAX_POINTS
    · rw [if_pos hg]
      have hlen : points.length < 1000 := hg.2
      have hbig : ∀ points' : List SamplePoint, points'.length ≤ 1001 →
          (genLoop f maxX step fuel (x + step) (f x) points').length ≤
            max points.length 1001 := by
        intro points' h'
        exact le_trans (ih _ _ _)
          (le_trans (Nat.max_le.mpr ⟨h', le_refl 1001⟩) (le_max_right _ _))
      cases hf : f x with
      | none => exact le_trans (ih _ _ _) (Nat.max_le.mpr ⟨le_max_left _ _, le_max_right _ _⟩)
      | some y =>
        by_cases habs : |y| > DISCONTINUITY_THRESHOLD
        · simp only [habs, if_true]
          exact le_trans (ih _ _ _) (Nat.max_le.mpr ⟨le_max_left _ _, le_max_right _ _⟩)
        · simp only [habs, if_false]
          cases previousY with
          | none =>
            refine le_trans (ih _ _ _) ?_
            refine le_trans (Nat.max_le.mpr ⟨?_, le_refl 1001⟩) (le_max_right _ _)
            simp only [List.length_append, List.length_cons, List.length_nil]
            omega
          | some py =>
            by_cases hj : |y - py| > DISCONTINUITY_THRESHOLD
            · simp only [hj, if_true]
              refine le_trans (ih _ _ _) ?_
              refine le_trans (Nat.max_le.mpr ⟨?_, le_refl 1001⟩) (le_max_right _ _)
              simp only [List.length_append, List.length_cons, List.length_nil]
              omega
            · simp only [hj, if_false]
              refine le_trans (ih _ _ _) ?_
              refine le_trans (Nat.max_le.mpr ⟨?_, le_refl 1001⟩) (le_max_right _ _)
              simp only [List.length_append, List.length_cons, List.length_nil]
              omega
    · rw [if_neg hg]
      exact le_max_left _ _

/-- Concatenation preserves break-marker well-formedness: a well-formed
left part cannot end in a NaN point, so no new NaN adjacency arises at
the junction. -/
theorem goodBreaks_append (l l' : List SamplePoint) (h : goodBreaks l = true)
    (h' : goodBreaks l' = true) : goodBreaks (l ++ l') = true := by
  induction l with
  | nil => simpa using h'
  | cons p tl ih =>
    cases hp : p.y with
    | some v =>
      rw [List.cons_append]
      simp only [goodBreaks, hp] at h ⊢
      exact ih h
    | none =>
      cases tl with
      | nil => simp [goodBreaks, hp] at h
      | cons q tl2 =>
        cases hq : q.y with
        | none => simp [goodBreaks, hp, hq] at h
        | some v =>
          simp only [goodBreaks, hp, hq, Bool.and_eq_true, decide_eq_true_eq] at h
          rw [List.cons_append, List.cons_append]
          simp only [goodBreaks, hp, hq, Bool.and_eq_true, decide_eq_true_eq]
          refine ⟨⟨h.1.1, h.1.2⟩, ?_⟩
          have h2 : goodBreaks (q :: tl2) = true := by
            simp only [goodBreaks, hq]
            exact h.2
          have h3 := ih h2
          rw [List.cons_append] at h3
          simpa only [goodBreaks, hq] using h3

/-- A single in-range valid point is a well-formed sample list. -/
theorem goodBreaks_single (x y : ℚ) :
    goodBreaks [⟨x, some y⟩] = true := by
  simp [goodBreaks]

/-- A NaN marker immediately followed by an in-range valid point at the
same x is a well-formed sample list. -/
theorem goodBreaks_pair (x y : ℚ) (hy : |y| ≤ DISCONTINUITY_THRESHOLD) :
    goodBreaks [⟨x, none⟩, ⟨x, some y⟩] = true := by
  simp [goodBreaks, hy]

/-- The sampling loop preserves break-marker well-formedness: a NaN
marker is only ever pushed together with the in-range valid point that
follows it at the same x. -/
theorem genLoop_goodBreaks (f : ℚ → Option ℚ) (maxX step : ℚ) :
    ∀ (fuel : ℕ) (x : ℚ) (previousY : Option ℚ) (points : List SamplePoint),
      goodBreaks points = true →
      goodBreaks (genLoop f maxX step fuel x previousY points) = true := by
  intro fuel
  induction fuel with
  | zero =>
    intro x previousY points h
    simpa [genLoop] using h
  | succ fuel ih =>
    intro x previousY points h
    rw [genLoop]
    by_cases hg : x ≤ maxX ∧ points.length < MAX_POINTS
    · rw [if_pos hg]
      cases hf : f x with
      | none => exact ih _ _ _ h
      | some y =>
        by_cases habs : |y| > DISCONTINUITY_THRESHOLD
        · simp only [habs, if_true]
          exact ih _ _ _ h
        · simp only [habs, if_false]
          have hin : |y| ≤ DISCONTINUITY_THRESHOLD := not_lt.mp habs
          cases previousY with
          | none => exact ih _ _ _ (goodBreaks_append _ _ h (goodBreaks_single x y))
          | some py =>
            by_cases hj : |y - py| > DISCONTINUITY_THRESHOLD
            · simp only [hj, if_true]
              refine ih _ _ _ ?_
              rw [List.append_assoc]
              exact goodBreaks_append _ _ h (goodBreaks_pair x y hin)
            · simp only [hj, if_false]
              exact ih _ _ _ (goodBreaks_append _ _ h (goodBreaks_single x y))
    · rw [if_neg hg]
      exact h

/-- Appending points all stamped with the current x keeps a sample list
ordered, when every accumulated point lies at or left of x. -/
theorem pairwise_append_at (points l : List SamplePoint) (x : ℚ)
    (hp : List.Pairwise (fun p q : SamplePoint => p.x ≤ q.x) points)
    (hx : ∀ p ∈ points, p.x ≤ x)
    (hl : ∀ b ∈ l, b.x = x)
    (hpl : List.Pairwise (fun p q : SamplePoint => p.x ≤ q.x) l) :
    List.Pairwise (fun p q : SamplePoint => p.x ≤ q.x) (points ++ l) := by
  refine List.pairwise_append.mpr ⟨hp, hpl, ?_⟩
  intro a ha b hb
  rw [hl b hb]
  exact hx a ha

/-- Appending points stamped with the current x keeps every point at or
left of any later loop position. -/
theorem mem_append_le (points l : List SamplePoint) (x x' : ℚ)
    (hx : ∀ p ∈ points, p.x ≤ x) (hxx : x ≤ x')
    (hl : ∀ b ∈ l, b.x = x) :
    ∀ p ∈ points ++ l, p.x ≤ x' := by
  intro p hmem
  rcases List.mem_append.mp hmem with hm | hm
  · exact le_trans (hx p hm) hxx
  · rw [hl p hm]
    exact hxx

/-- The sampling loop emits points in non-decreasing x order: a new
point is always stamped with the current loop variable, which never
decreases when the step is non-negative. -/
theorem genLoop_pairwise (f : ℚ → Option ℚ) (maxX step : ℚ) (hstep : 0 ≤ step) :
    ∀ (fuel : ℕ) (x : ℚ) (previousY : Option ℚ) (points : List SamplePoint),
      List.Pairwise (fun p q : SamplePoint => p.x ≤ q.x) points →
      (∀ p ∈ points, p.x ≤ x) →
      List.Pairwise (fun p q : SamplePoint => p.x ≤ q.x)
        (genLoop f maxX step fuel x previousY points) := by
  intro fuel
  induction fuel with
  | zero =>
    intro x previousY points hp hx
    simpa [genLoop] using hp
  | succ fuel ih =>
    intro x previousY points hp hx
    have hxs : x ≤ x + step := by linarith
    have hone : ∀ y : Option ℚ, ∀ b ∈ [(⟨x, y⟩ : SamplePoint)], b.x = x := by
      intro y b hb
      simp only [List.mem_singleton] at hb
      subst hb
      rfl
    have htwo : ∀ y : ℚ, ∀ b ∈ [(⟨x, none⟩ : SamplePoint), ⟨x, some y⟩], b.x = x := by
      intro y b hb
      simp only [List.mem_cons, List.mem_singleton, List.not_mem_nil, or_false] at hb
      rcases hb with rfl | rfl <;> rfl
    rw [genLoop]
    by_cases hg : x ≤ maxX ∧ points.length < MAX_POINTS
    · rw [if_pos hg]
      cases hf : f x with
      | none => exact ih _ _ _ hp (fun p hm => le_trans (hx p hm) hxs)
      | some y =>
        by_cases habs : |y| > DISCONTINUITY_THRESHOLD
        · simp only [habs, if_true]
          exact ih _ _ _ hp (fun p hm => le_trans (hx p hm) hxs)
        · simp only [habs, if_false]
          cases previousY with
          | none =>
            exact ih _ _ _
              (pairwise_append_at _ _ x hp hx (hone (some y)) (by simp))
              (mem_append_le _ _ x (x + step) hx hxs (hone (some y)))
          | some py =>
            by_cases hj : |y - py| > DISCONTINUITY_THRESHOLD
            · simp only [hj, if_true]
              rw [List.append_assoc]
              exact ih _ _ _
                (pairwise_append_at _ _ x hp hx (htwo y) (by simp))
                (mem_append_le _ _ x (x + step) hx hxs (htwo y))
            · simp only [hj, if_false]
              exact ih _ _ _
                (pairwise_append_at _ _ x hp hx (hone (some y)) (by simp))
                (mem_append_le _ _ x (x + step) hx hxs (hone (some y)))
    · rw [if_neg hg]
      exact hp

/-- C1 (amended): for every expression, xMin, xMax, and step, the
sequence returned by generatePoints contains at most 1001 points; the
guard stops sampling once at least MAX_POINTS points have been emitted
even if x is below xMax, but the iteration that crosses the cap may
emit a break marker and a valid point together, so the cap can be
exceeded by one. -/
theorem c1_amended_length_le (m : MathEngine) (expr : String) (minX maxX step : ℚ) :
    (generatePoints m expr minX maxX step).length ≤ 1001 := by
  rw [generatePoints]
  by_cases h : jsTrim expr = ""
  · rw [if_pos h]
    simp
  · rw [if_neg h]
    simpa using genLoop_length_le _ maxX step _ minX none []

/-- C2: in the sampling loop of generatePoints, while the guard holds:
if the evaluated y is valid and in range but jumps by more than the
threshold from the previously emitted y, exactly one NaN-marked point
at the current x is emitted immediately before the valid point; if the
evaluated y is out of range, or NaN, no point is emitted for this x and
the previous-y tracking is reset to null. -/
theorem c2_step_behavior (f : ℚ → Option ℚ) (maxX step : ℚ) (fuel : ℕ)
    (x : ℚ) (previousY : Option ℚ) (points : List SamplePoint)
    (hx : x ≤ maxX) (hlen : points.length < MAX_POINTS) :
    (∀ y py, f x = some y → |y| ≤ DISCONTINUITY_THRESHOLD → previousY = some py →
      |y - py| > DISCONTINUITY_THRESHOLD →
      genLoop f maxX step (fuel + 1) x previousY points =
        genLoop f maxX step fuel (x + step) (some y)
          (points ++ [⟨x, none⟩, ⟨x, some y⟩])) ∧
    (∀ y, f x = some y → |y| > DISCONTINUITY_THRESHOLD →
      genLoop f maxX step (fuel + 1) x previousY points =
        genLoop f maxX step fuel (x + step) none points) ∧
    (f x = none →
      genLoop f maxX step (fuel + 1) x previousY points =
        genLoop f maxX step fuel (x + step) none points) := by
  refine ⟨?_, ?_, ?_⟩
  · intro y py hf hy hprev hjump
    subst hprev
    have hnot : ¬ |y| > DISCONTINUITY_THRESHOLD := not_lt.mpr hy
    rw [genLoop, if_pos ⟨hx, hlen⟩]
    simp only [hf, hnot, if_false, hjump, if_true, List.append_assoc,
      List.cons_append, List.nil_append]
  · intro y hf hy
    rw [genLoop, if_pos ⟨hx, hlen⟩]
    simp only [hf, hy, if_true]
  · intro hf
    rw [genLoop, if_pos ⟨hx, hlen⟩]
    simp only [hf]

/-- C5 (amended): for every expression, xMin, xMax, and positive step,
the x coordinates of the sequence returned by generatePoints are
non-decreasing; they are not strictly increasing in general, because a
break marker shares its x with the valid point that follows. -/
theorem c5_amended_nondecreasing (m : MathEngine) (expr : String)
    (minX maxX step : ℚ) (hstep : 0 < step) :
    List.Pairwise (fun p q : SamplePoint => p.x ≤ q.x)
      (generatePoints m expr minX maxX step) := by
  rw [generatePoints]
  by_cases h : jsTrim expr = ""
  · rw [if_pos h]
    exact List.Pairwise.nil
  · rw [if_neg h]
    exact genLoop_pairwise _ maxX step (le_of_lt hstep) _ minX none []
      List.Pairwise.nil (by simp)

/-- C10: in every sequence returned by generatePoints, a NaN point is
immediately followed by a point with the same x whose value is within
the discontinuity threshold; in particular a NaN point is never last. -/
theorem c10_break_structure (m : MathEngine) (expr : String) (minX maxX step : ℚ) :
    goodBreaks (generatePoints m expr minX maxX step) = true := by
  rw [generatePoints]
  by_cases h : jsTrim expr = ""
  · rw [if_pos h]
    rfl
  · rw [if_neg h]
    exact genLoop_goodBreaks _ maxX step _ minX none [] rfl

section ConcreteWitnesses

attribute [local semireducible] Rat.add Rat.sub Rat.mul Rat.inv

/-- Witness for C2: at x = 1 with previously emitted y = -600000 and
current y = 600000, one NaN marker at x = 1 is pushed before the valid
point. -/
theorem c2_step_behavior_witness :
    (1 : ℚ) ≤ 1 ∧ ([] : List SamplePoint).length < MAX_POINTS ∧
    genLoop (fun x => evaluateExpression jumpEngine "f" x) 1 1 1 1 (some (-600000)) [] =
      genLoop (fun x => evaluateExpression jumpEngine "f" x) 1 1 0 (1 + 1) (some 600000)
        ([] ++ [⟨1, none⟩, ⟨1, some 600000⟩]) :=
  ⟨by norm_num, by decide,
    (c2_step_behavior (fun x => evaluateExpression jumpEngine "f" x) 1 1 0 1
      (some (-600000)) [] (by norm_num) (by decide)).1 600000 (-600000)
      (by decide) (by decide) rfl (by decide)⟩

/-- Witness for C5 (amended): a concrete sampling run with positive
step has non-decreasing x coordinates. -/
theorem c5_amended_witness :
    (0 : ℚ) < 1 ∧
    List.Pairwise (fun p q : SamplePoint => p.x ≤ q.x)
      (generatePoints jumpEngine "f" 0 1 1) :=
  ⟨by norm_num, c5_amended_nondecreasing jumpEngine "f" 0 1 1 (by norm_num)⟩

/-- Counterexample to C5 as stated: with an in-range jump the sampler
emits the break marker and the next valid point at the same x, so the
x coordinates are not strictly increasing. -/
theorem c5_counterexample :
    ¬ List.Pairwise (fun p q : SamplePoint => p.x < q.x)
      (generatePoints jumpEngine "f" 0 1 1) := by decide

end ConcreteWitnesses

/-- C3: evaluateExpression never surfaces an exception to its caller:
when the engine raises, the result is NaN (none); when the engine
returns, its value is passed through.  Totality of the Lean function
embeds the absence of a thrown error. -/
theorem c3_evaluate_total (m : MathEngine) (expr : String) (x : ℚ) :
    (∀ s, m expr x = .error s → evaluateExpression m expr x = none) ∧
    (∀ v, m expr x = .ok v → evaluateExpression m expr x = v) := by
  constructor
  · intro s hs
    simp [evaluateExpression, hs]
  · intro v hv
    simp [evaluateExpression, hv]

/-- Witness for C3: a raising engine yields NaN. -/
theorem c3_evaluate_total_witness :
    failEngine "x" 0 = .error "Undefined symbol f" ∧
    evaluateExpression failEngine "x" 0 = none :=
  ⟨rfl, (c3_evaluate_total failEngine "x" 0).1 "Undefined symbol f" rfl⟩

/-- Counterexample to C4 as stated: with an engine that raises, both
derivative evaluations fail, yet calculateDerivative returns the NaN
value, not null: evaluateExpression catches internally and returns
NaN, so the catch branch of calculateDerivative cannot run. -/
theorem c4_counterexample :
    evaluateExpression failEngine "x" (0 - 1 / 10000) = none ∧
    calculateDerivative failEngine "x" 0 (1 / 10000) = DerivResult.nan ∧
    DerivResult.nan ≠ DerivResult.null :=
  ⟨rfl, rfl, by decide⟩

/-- C4 (amended): calculateDerivative returns the NaN value, never
null, whenever either of its two evaluations at x - h or x + h fails
with h = 1e-4; when both succeed it returns the central difference
(evaluate(x+h) - evaluate(x-h)) / (2h). -/
theorem c4_amended (m : MathEngine) (expr : String) (x : ℚ) :
    ((evaluateExpression m expr (x - 1 / 10000) = none ∨
      evaluateExpression m expr (x + 1 / 10000) = none) →
      calculateDerivative m expr x (1 / 10000) = DerivResult.nan) ∧
    (∀ y1 y2, evaluateExpression m expr (x - 1 / 10000) = some y1 →
      evaluateExpression m expr (x + 1 / 10000) = some y2 →
      calculateDerivative m expr x (1 / 10000) =
        DerivResult.val ((y2 - y1) / (2 * (1 / 10000)))) ∧
    calculateDerivative m expr x (1 / 10000) ≠ DerivResult.null := by
  refine ⟨?_, ?_, ?_⟩
  · rintro (h | h)
    · rw [calculateDerivative, h]
    · rw [calculateDerivative, h]
      cases evaluateExpression m expr (x - 1 / 10000) <;> rfl
  · intro y1 y2 h1 h2
    rw [calculateDerivative, h1, h2]
  · rw [calculateDerivative]
    cases evaluateExpression m expr (x - 1 / 10000) <;>
      cases evaluateExpression m expr (x + 1 / 10000) <;> simp
  
/-- Witness for C4 (amended): the raising engine produces the NaN
value. -/
theorem c4_amended_witness :
    (evaluateExpression failEngine "x" ((0 : ℚ) - 1 / 10000) = none ∨
      evaluateExpression failEngine "x" ((0 : ℚ) + 1 / 10000) = none) ∧
    calculateDerivative failEngine "x" 0 (1 / 10000) = DerivResult.nan :=
  ⟨Or.inl rfl, (c4_amended failEngine "x" 0).1 (Or.inl rfl)⟩

/-- C6: with positive canvas extents and non-degenerate bounds, mapping
a pixel to graph coordinates and back returns the pixel exactly (the
rational model has no rounding, so it is in particular within any
floating-point tolerance), and the y axis is inverted: pixel y
strictly decreases as graph y increases. -/
theorem c6_roundtrip (b : GraphBounds) (size_w size_h cx cy : ℚ)
    (hx : b.xMin < b.xMax) (hy : b.yMin < b.yMax)
    (hw : 0 < size_w) (hh : 0 < size_h) :
    scaleX size_w (canvasToGraphCoords size_w size_h cx cy b).1 b.xMin b.xMax = cx ∧
    scaleY size_h (canvasToGraphCoords size_w size_h cx cy b).2 b.yMin b.yMax = cy ∧
    (∀ y1 y2, y1 < y2 →
      scaleY size_h y2 b.yMin b.yMax < scaleY size_h y1 b.yMin b.yMax) := by
  have hdx : b.xMax - b.xMin ≠ 0 := ne_of_gt (by linarith)
  have hdy : b.yMax - b.yMin ≠ 0 := ne_of_gt (by linarith)
  have hw' : size_w ≠ 0 := ne_of_gt hw
  have hh' : size_h ≠ 0 := ne_of_gt hh
  refine ⟨?_, ?_, ?_⟩
  · rw [canvasToGraphCoords, scaleX]
    field_simp
    ring
  · rw [canvasToGraphCoords, scaleY]
    field_simp
    ring
  · intro y1 y2 h12
    rw [scaleY, scaleY]
    have hdy' : 0 < b.yMax - b.yMin := by linarith
    have hfrac : (y1 - b.yMin) / (b.yMax - b.yMin) < (y2 - b.yMin) / (b.yMax - b.yMin) :=
      (div_lt_div_iff_of_pos_right hdy').mpr (by linarith)
    have := mul_lt_mul_of_pos_right hfrac hh
    linarith

/-- Witness for C6: a concrete round trip on an 800 by 600 canvas. -/
theorem c6_roundtrip_witness :
    ((⟨0, 10, 0, 10⟩ : GraphBounds).xMin < (⟨0, 10, 0, 10⟩ : GraphBounds).xMax) ∧
    (0 : ℚ) < 800 ∧
    scaleX 800 (canvasToGraphCoords 800 600 100 50 ⟨0, 10, 0, 10⟩).1 0 10 = 100 ∧
    scaleY 600 (canvasToGraphCoords 800 600 100 50 ⟨0, 10, 0, 10⟩).2 0 10 = 50 :=
  ⟨by norm_num, by norm_num,
    (c6_roundtrip ⟨0, 10, 0, 10⟩ 800 600 100 50 (by norm_num) (by norm_num)
      (by norm_num) (by norm_num)).1,
    (c6_roundtrip ⟨0, 10, 0, 10⟩ 800 600 100 50 (by norm_num) (by norm_num)
      (by norm_num) (by norm_num)).2.1⟩

/-- The zoom clamp lands in the closed interval from one half to two. -/
theorem clampZoom_mem (z : ℚ) : 1 / 2 ≤ clampZoom z ∧ clampZoom z ≤ 2 := by
  constructor
  · exact le_max_left _ _
  · rw [clampZoom]
    apply max_le
    · norm_num
    · exact min_le_left _ _

/-- Requesting zoom 3 clamps to 2. -/
theorem clampZoom_three : clampZoom 3 = 2 := by
  rw [clampZoom, min_eq_left (by norm_num : (2 : ℚ) ≤ 3),
    max_eq_right (by norm_num : (1 / 2 : ℚ) ≤ 2)]

/-- Requesting zoom one tenth clamps to one half. -/
theorem clampZoom_tenth : clampZoom (1 / 10) = 1 / 2 := by
  rw [clampZoom, min_eq_right (by norm_num : (1 / 10 : ℚ) ≤ 2),
    max_eq_left (by norm_num : (1 / 10 : ℚ) ≤ 1 / 2)]

/-- C7: starting from the initial viewport, every sequence of UI events
keeps the zoom between one half and two; requesting zoom 3 stores 2 and
requesting one tenth stores one half, through both zoom mutators; and
panning never changes the zoom. -/
theorem c7_zoom_invariant :
    (∀ evs : List ViewportEvent,
      1 / 2 ≤ (runEvents initialViewport evs).zoom ∧
        (runEvents initialViewport evs).zoom ≤ 2) ∧
    (∀ v : Viewport,
      (setZoomLevel v 3).zoom = 2 ∧ (setZoomLevel v (1 / 10)).zoom = 1 / 2) ∧
    (∀ v : Viewport,
      (handleZoomChange v 3).zoom = 2 ∧ (handleZoomChange v (1 / 10)).zoom = 1 / 2) ∧
    (∀ (v : Viewport) (px py w h : ℚ), (handleMouseMove v px py w h).zoom = v.zoom) := by
  have happly : ∀ (v : Viewport) (e : ViewportEvent),
      1 / 2 ≤ v.zoom ∧ v.zoom ≤ 2 →
      1 / 2 ≤ (applyEvent v e).zoom ∧ (applyEvent v e).zoom ≤ 2 := by
    intro v e hv
    cases e with
    | setZoom z => exact clampZoom_mem z
    | sliderZoom z => exact clampZoom_mem (clampZoom z)
    | pan px py w h => exact hv
    | reset =>
      constructor <;> norm_num [applyEvent, resetViewViewport]
  have key : ∀ (evs : List ViewportEvent) (v : Viewport),
      1 / 2 ≤ v.zoom ∧ v.zoom ≤ 2 →
      1 / 2 ≤ (runEvents v evs).zoom ∧ (runEvents v evs).zoom ≤ 2 := by
    intro evs
    induction evs with
    | nil => intro v hv; exact hv
    | cons e rest ih =>
      intro v hv
      rw [runEvents, List.foldl_cons]
      exact ih (applyEvent v e) (happly v e hv)
  refine ⟨?_, ?_, ?_, ?_⟩
  · intro evs
    refine key evs initialViewport ⟨?_, ?_⟩ <;> norm_num [initialViewport]
  · intro v
    exact ⟨clampZoom_three, clampZoom_tenth⟩
  · intro v
    constructor
    · show clampZoom (clampZoom 3) = 2
      rw [clampZoom_three]
      rw [clampZoom, min_eq_left (by norm_num : (2 : ℚ) ≤ 2),
        max_eq_right (by norm_num : (1 / 2 : ℚ) ≤ 2)]
    · show clampZoom (clampZoom (1 / 10)) = 1 / 2
      rw [clampZoom_tenth]
      rw [clampZoom, min_eq_right (by norm_num : (1 / 2 : ℚ) ≤ 2),
        max_eq_left (by norm_num : (1 / 2 : ℚ) ≤ 1 / 2)]
  · intro v px py w h
    rfl

/-- Panning then reading the graph point under the moved cursor shifts
the x coordinate by 20 px (1 - zoom^2) / (size_w zoom): the pan delta
is proportional to zoom while the pixel-to-graph scale is inversely
proportional to it. -/
theorem pan_shift_x (v : Viewport) (size_w size_h cx cy px py : ℚ)
    (hw : size_w ≠ 0) (hz : v.zoom ≠ 0) :
    (graphPointAtPixel (handleMouseMove v px py size_w size_h) size_w size_h
        (cx + px) (cy + py)).1 -
      (graphPointAtPixel v size_w size_h cx cy).1 =
    20 * px * (1 - v.zoom ^ 2) / (size_w * v.zoom) := by
  simp only [graphPointAtPixel, handleMouseMove, canvasToGraphCoords, calculateBounds]
  field_simp
  ring

/-- Panning then reading the graph point under the moved cursor shifts
the y coordinate by 20 py (zoom^2 size_w - size_h) / (size_h zoom
size_w): the pan delta divides the pixel delta by the canvas height
while the visible height involves the aspect ratio. -/
theorem pan_shift_y (v : Viewport) (size_w size_h cx cy px py : ℚ)
    (hw : size_w ≠ 0) (hh : size_h ≠ 0) (hz : v.zoom ≠ 0) :
    (graphPointAtPixel (handleMouseMove v px py size_w size_h) size_w size_h
        (cx + px) (cy + py)).2 -
      (graphPointAtPixel v size_w size_h cx cy).2 =
    20 * py * (v.zoom ^ 2 * size_w - size_h) / (size_h * v.zoom * size_w) := by
  simp only [graphPointAtPixel, handleMouseMove, canvasToGraphCoords, calculateBounds]
  field_simp
  ring

/-- C8 (amended): panning shifts the center by minus 20 zoom dx / width
horizontally and plus 20 zoom dy / height vertically for a drag by the
pixel delta (dx, dy); the graph point under the cursor is preserved in
x exactly when dx = 0 or zoom = 1, and in y exactly when dy = 0 or
zoom^2 equals height / width, so screen-space-anchored panning fails
for general zoom values in the permitted interval. -/
theorem c8_amended (v : Viewport) (size_w size_h cx cy px py : ℚ)
    (hw : 0 < size_w) (hh : 0 < size_h) (hz : 0 < v.zoom) :
    ((graphPointAtPixel (handleMouseMove v px py size_w size_h) size_w size_h
        (cx + px) (cy + py)).1 = (graphPointAtPixel v size_w size_h cx cy).1 ↔
      px = 0 ∨ v.zoom = 1) ∧
    ((graphPointAtPixel (handleMouseMove v px py size_w size_h) size_w size_h
        (cx + px) (cy + py)).2 = (graphPointAtPixel v size_w size_h cx cy).2 ↔
      py = 0 ∨ v.zoom ^ 2 = size_h / size_w) := by
  have hw' : size_w ≠ 0 := ne_of_gt hw
  have hh' : size_h ≠ 0 := ne_of_gt hh
  have hz' : v.zoom ≠ 0 := ne_of_gt hz
  have hx := pan_shift_x v size_w size_h cx cy px py hw' hz'
  have hysh := pan_shift_y v size_w size_h cx cy px py hw' hh' hz'
  constructor
  · constructor
    · intro hEq
      have hdiff : 20 * px * (1 - v.zoom ^ 2) / (size_w * v.zoom) = 0 := by
        rw [← hx]
        exact sub_eq_zero_of_eq hEq
      have hnum : 20 * px * (1 - v.zoom ^ 2) = 0 := by
        rcases div_eq_zero_iff.mp hdiff with h | h
        · exact h
        · exact absurd h (mul_ne_zero hw' hz')
      rcases mul_eq_zero.mp hnum with h | h
      · left
        linarith
      · right
        have hfac : (v.zoom - 1) * (v.zoom + 1) = 0 := by linear_combination -h
        rcases mul_eq_zero.mp hfac with h1 | h1
        · linarith
        · linarith
    · intro hOr
      have hzero : (graphPointAtPixel (handleMouseMove v px py size_w size_h)
          size_w size_h (cx + px) (cy + py)).1 -
            (graphPointAtPixel v size_w size_h cx cy).1 = 0 := by
        rw [hx]
        rcases hOr with rfl | h1
        · ring_nf
        · rw [h1]
          ring_nf
      exact sub_eq_zero.mp hzero
  · constructor
    · intro hEq
      have hdiff : 20 * py * (v.zoom ^ 2 * size_w - size_h) /
          (size_h * v.zoom * size_w) = 0 := by
        rw [← hysh]
        exact sub_eq_zero_of_eq hEq
      have hnum : 20 * py * (v.zoom ^ 2 * size_w - size_h) = 0 := by
        rcases div_eq_zero_iff.mp hdiff with h | h
        · exact h
        · exact absurd h (mul_ne_zero (mul_ne_zero hh' hz') hw')
      rcases mul_eq_zero.mp hnum with h | h
      · left
        linarith
      · right
        rw [eq_div_iff hw']
        linarith
    · intro hOr
      have hzero : (graphPointAtPixel (handleMouseMove v px py size_w size_h)
          size_w size_h (cx + px) (cy + py)).2 -
            (graphPointAtPixel v size_w size_h cx cy).2 = 0 := by
        rw [hysh]
        rcases hOr with rfl | h1
        · ring_nf
        · rw [eq_div_iff hw'] at h1
          rw [show v.zoom ^ 2 * size_w - size_h = 0 from by linarith]
          ring_nf
      exact sub_eq_zero.mp hzero

/-- C9: the digit rewrites are applied only by validateExpression, not
by evaluateExpression: the sanitizer turns x2 into the caret form, so
an engine that raises on the bare identifier x2 but evaluates the
caret form makes validateExpression accept x2 while
evaluateExpression yields NaN for it. -/
theorem c9_rewrite_asymmetry :
    sanitizeExpression "x2" = "x^2" ∧
    (∀ (m : MathEngine) (x : ℚ) (s : String),
      m "x2" x = .error s → evaluateExpression m "x2" x = none) ∧
    (∀ m : MathEngine,
      (∀ x ∈ testXValues, ∃ v, m "x^2" x = .ok v) →
      (validateExpression m "x2").isValid = true) := by
  refine ⟨by decide, ?_, ?_⟩
  · intro m x s hs
    simp [evaluateExpression, hs]
  · intro m hm
    have hok : forEachEvaluate m "x^2" testXValues = .ok () := by
      obtain ⟨v1, h1⟩ := hm (-2) (by simp [testXValues])
      obtain ⟨v2, h2⟩ := hm (-1) (by simp [testXValues])
      obtain ⟨v3, h3⟩ := hm 0 (by simp [testXValues])
      obtain ⟨v4, h4⟩ := hm 1 (by simp [testXValues])
      obtain ⟨v5, h5⟩ := hm 2 (by simp [testXValues])
      rw [testXValues]
      simp [forEachEvaluate, h1, h2, h3, h4, h5]
    rw [validateExpression, if_neg (by decide : ¬ (jsTrim "x2" = ""))]
    rw [show sanitizeExpression "x2" = "x^2" from by decide, hok]

section MoreConcreteWitnesses

attribute [local semireducible] Rat.add Rat.sub Rat.mul Rat.inv

/-- Counterexample to C8 as stated: at zoom 2 (inside the permitted
interval) on a square 800 by 800 canvas, dragging one pixel to the
right moves a different graph point under the cursor position, so
panning is not screen-space anchored. -/
theorem c8_counterexample :
    (1 / 2 : ℚ) ≤ (⟨(0, 0), 2⟩ : Viewport).zoom ∧
    (⟨(0, 0), 2⟩ : Viewport).zoom ≤ 2 ∧
    (graphPointAtPixel (handleMouseMove ⟨(0, 0), 2⟩ 1 0 800 800) 800 800
        (0 + 1) (0 + 0)).1 ≠
      (graphPointAtPixel (⟨(0, 0), 2⟩ : Viewport) 800 800 0 0).1 := by
  refine ⟨by norm_num, by norm_num, ?_⟩
  decide

/-- Witness for C8 (amended): at zoom 1 the horizontal anchoring
equivalence holds for a concrete drag. -/
theorem c8_amended_witness :
    (0 : ℚ) < 800 ∧ (0 : ℚ) < 600 ∧ (0 : ℚ) < (⟨(0, 0), 1⟩ : Viewport).zoom ∧
    ((graphPointAtPixel (handleMouseMove ⟨(0, 0), 1⟩ 5 0 800 600) 800 600
        (3 + 5) (4 + 0)).1 = (graphPointAtPixel (⟨(0, 0), 1⟩ : Viewport) 800 600 3 4).1 ↔
      (5 : ℚ) = 0 ∨ (⟨(0, 0), 1⟩ : Viewport).zoom = 1) :=
  ⟨by norm_num, by norm_num, by norm_num,
    (c8_amended ⟨(0, 0), 1⟩ 800 600 3 4 5 0 (by norm_num) (by norm_num) (by norm_num)).1⟩

/-- Witness for C9: with the engine that raises on the identifier x2
and evaluates the caret form, validation of x2 succeeds while
evaluation of x2 yields NaN. -/
theorem c9_rewrite_asymmetry_witness :
    sqEngine "x2" 0 = .error "Undefined symbol" ∧
    evaluateExpression sqEngine "x2" 0 = none ∧
    (validateExpression sqEngine "x2").isValid = true :=
  ⟨rfl,
    c9_rewrite_asymmetry.2.1 sqEngine 0 "Undefined symbol" rfl,
    c9_rewrite_asymmetry.2.2 sqEngine (by
      intro x hx
      refine ⟨some (x ^ 2), ?_⟩
      simp [sqEngine])⟩

/-- The alternating sample function evaluates a natural-number sample
index to the alternating value. -/
theorem altF_natCast (k : ℕ) : altF (k : ℚ) = some (av k) := by
  simp only [altF, evaluateExpression, altEngine]
  have h2 : (((k : ℚ)).num % 2 = 0) ↔ (k % 2 = 0) := by
    rw [Rat.num_natCast]
    omega
  by_cases h : k % 2 = 0
  · rw [if_pos (h2.mpr h), av, if_pos h]
  · rw [if_neg (fun hc => h (h2.mp hc)), av, if_neg h]

/-- The alternating values stay inside the discontinuity threshold. -/
theorem av_bound (k : ℕ) : |av k| ≤ DISCONTINUITY_THRESHOLD := by
  rw [av]
  split <;> decide

/-- Consecutive alternating values jump by more than the threshold. -/
theorem av_jump (k : ℕ) : |av (k + 1) - av k| > DISCONTINUITY_THRESHOLD := by
  rcases Nat.mod_two_eq_zero_or_one k with h | h
  · rw [av, av, if_neg (by omega : ¬ ((k + 1) % 2 = 0)), if_pos h]
    decide
  · rw [av, av, if_pos (by omega : (k + 1) % 2 = 0), if_neg (by omega : ¬ (k % 2 = 0))]
    decide

/-- One iteration of the alternating run: at sample index k at least 1,
the jump from the previous value pushes a break marker and the current
value. -/
theorem altLoop_step (k : ℕ) (hk1 : 1 ≤ k) (hk : k ≤ 500) (fuel : ℕ)
    (pts : List SamplePoint) (hlen : pts.length < 1000) :
    genLoop altF 500 1 (fuel + 1) (k : ℚ) (some (av (k - 1))) pts =
      genLoop altF 500 1 fuel ((k : ℚ) + 1) (some (av k))
        (pts ++ [⟨(k : ℚ), none⟩, ⟨(k : ℚ), some (av k)⟩]) := by
  have hxk : ((k : ℚ)) ≤ 500 := by exact_mod_cast hk
  have hm := altF_natCast k
  have hnl : ¬ (|av k| > DISCONTINUITY_THRESHOLD) := not_lt.mpr (av_bound k)
  have hjump : |av k - av (k - 1)| > DISCONTINUITY_THRESHOLD := by
    have h := av_jump (k - 1)
    rwa [show k - 1 + 1 = k from by omega] at h
  rw [genLoop, if_pos ⟨hxk, hlen⟩]
  simp only [hm, hnl, if_false, hjump, if_true, List.append_assoc,
    List.cons_append, List.nil_append]

/-- The alternating run entered at sample index k with 2k - 1
accumulated points and the matching remaining fuel fills the list to
exactly 1001 points. -/
theorem altLoop_fills : ∀ (j k : ℕ), k + j = 500 → 1 ≤ k →
    ∀ pts : List SamplePoint, pts.length = 2 * k - 1 →
    (genLoop altF 500 1 (j + 1) (k : ℚ) (some (av (k - 1))) pts).length = 1001 := by
  intro j
  induction j with
  | zero =>
    intro k hk hk1 pts hlen
    have hk500 : k = 500 := by omega
    subst hk500
    rw [altLoop_step 500 (by omega) (by omega) 0 pts (by omega), genLoop]
    simp only [List.length_append, List.length_cons, List.length_nil]
    omega
  | succ j ih =>
    intro k hk hk1 pts hlen
    rw [altLoop_step k hk1 (by omega) (j + 1) pts (by omega)]
    have hcast : ((k : ℚ)) + 1 = ((k + 1 : ℕ) : ℚ) := by push_cast; ring
    have hav : av k = av ((k + 1) - 1) := by norm_num
    rw [hcast, hav]
    refine ih (k + 1) (by omega) (by omega) _ ?_
    simp only [List.length_append, List.length_cons, List.length_nil]
    omega

/-- The full alternating run returns exactly 1001 points. -/
theorem generatePoints_alt_length :
    (generatePoints altEngine "f" 0 500 1).length = 1001 := by
  rw [generatePoints, if_neg (by decide : ¬ (jsTrim "f" = "")),
    show iterFuel 0 500 1 = 500 + 1 from by decide]
  rw [genLoop, if_pos ⟨by norm_num, by decide⟩]
  have hm : evaluateExpression altEngine "f" (0 : ℚ) = some 600000 := by decide
  have hnl : ¬ (|(600000 : ℚ)| > DISCONTINUITY_THRESHOLD) := by decide
  simp only [hm, hnl, if_false, List.nil_append]
  have h0 : ((0 : ℚ)) + 1 = ((1 : ℕ) : ℚ) := by norm_num
  have h600 : (some (600000 : ℚ)) = some (av (1 - 1)) := by rw [av]; norm_num
  rw [h0, h600]
  exact altLoop_fills 499 1 (by omega) (by omega) _ (by decide)

/-- Counterexample to C1 as stated: with an expression alternating
between 600000 and -600000 on consecutive integers, every iteration
after the first pushes a break marker and a valid point together; the
iteration entered with 999 accumulated points pushes two more, so the
returned sequence has 1001 points, exceeding the claimed hard cap of
1000. -/
theorem c1_counterexample :
    ¬ ((generatePoints altEngine "f" 0 500 1).length ≤ 1000) := by
  rw [generatePoints_alt_length]
  omega

end MoreConcreteWitnesses
